import Mathlib

set_option linter.unusedVariables false

/-!
Verification of the FreeRTOS gdb helper (freertos.py): a shallow embedding of
the intrusive list walker, the task-list registry, the task-attribute schema,
the current-task resolver, the snapshot assembler and the two command entry
points, with theorems settling the specification claims about them.

Target memory is modelled as total functions from addresses (Nat) to node
contents; reads that can fail in gdb (dereferencing a task control block)
are modelled with Option, and a raised gdb error is an Except.error result.
The Python generator in FreeRTOSList.__iter__ is modelled with explicit fuel:
`walkAux` returns the owners yielded within `fuel` loop iterations together
with a flag telling whether the loop has exited by itself within that fuel.
-/

/-- One ListItem_t as read from target memory: its pxNext link and its
pvOwner back-reference. -/
structure ListItem where
  pxNext : Nat
  pvOwner : Nat
deriving DecidableEq

/-- The FreeRTOSList view built by FreeRTOSList.__init__: the declared
uxNumberOfItems, the address of the embedded xListEnd sentinel, the
sentinel's pxNext field (the head pointer), and the node memory used to
dereference list items. -/
structure FreeRTOSList where
  uxNumberOfItems : Nat
  xListEndAddr : Nat
  xListEndNext : Nat
  mem : Nat → ListItem

/-- head = self.xListEnd['pxNext'], as set in FreeRTOSList.__init__. -/
def FreeRTOSList.head (L : FreeRTOSList) : Nat :=
  L.xListEndNext

/-- The loop of FreeRTOSList.__iter__: while uxNumberOfItems > 0 and
curr_node != xListEnd.address, dereference, yield pvOwner, advance.
Returns (owners yielded within fuel steps, whether the loop exited). -/
def walkAux (L : FreeRTOSList) : Nat → Nat → List Nat × Bool
  | 0, _ => ([], false)
  | fuel + 1, curr =>
    if 0 < L.uxNumberOfItems ∧ curr ≠ L.xListEndAddr then
      let node := L.mem curr
      let r := walkAux L fuel node.pxNext
      (node.pvOwner :: r.1, r.2)
    else
      ([], true)

/-- Owners yielded by FreeRTOSList.__iter__ within `fuel` iterations. -/
def yieldsWithin (L : FreeRTOSList) (fuel : Nat) : List Nat :=
  (walkAux L fuel L.head).1

/-- Whether the FreeRTOSList.__iter__ loop exits within `fuel` iterations. -/
def terminatesWithin (L : FreeRTOSList) (fuel : Nat) : Bool :=
  (walkAux L fuel L.head).2

/-- isChain L curr addrs: starting at cursor `curr`, the node chain visits
exactly the addresses `addrs` (none of them the sentinel) and the last
node's pxNext returns to the sentinel address. -/
def isChain (L : FreeRTOSList) : Nat → List Nat → Bool
  | curr, [] => curr == L.xListEndAddr
  | curr, a :: rest =>
    curr == a && !(a == L.xListEndAddr) && isChain L (L.mem a).pxNext rest

theorem walkAux_zero_items (L : FreeRTOSList) (h : L.uxNumberOfItems = 0) :
    ∀ fuel curr, (walkAux L fuel curr).1 = [] ∧
      (1 ≤ fuel → (walkAux L fuel curr).2 = true) := by
  intro fuel curr
  cases fuel with
  | zero => exact ⟨rfl, by omega⟩
  | succ f =>
    have hcond : ¬ (0 < L.uxNumberOfItems ∧ curr ≠ L.xListEndAddr) := by
      intro hc
      omega
    simp [walkAux, hcond]

theorem walkAux_chain (L : FreeRTOSList) (hN : 0 < L.uxNumberOfItems) :
    ∀ (addrs : List Nat) (curr fuel : Nat), isChain L curr addrs = true →
      addrs.length < fuel →
      walkAux L fuel curr = (addrs.map (fun a => (L.mem a).pvOwner), true) := by
  intro addrs
  induction addrs with
  | nil =>
    intro curr fuel hch hfuel
    cases fuel with
    | zero => omega
    | succ f =>
      have hcurr : curr = L.xListEndAddr := by
        simpa [isChain] using hch
      have hcond : ¬ (0 < L.uxNumberOfItems ∧ curr ≠ L.xListEndAddr) := by
        intro hc
        exact hc.2 hcurr
      simp [walkAux, hcond]
  | cons a rest ih =>
    intro curr fuel hch hfuel
    cases fuel with
    | zero => simp at hfuel
    | succ f =>
      have hch' : curr = a ∧ a ≠ L.xListEndAddr ∧
          isChain L (L.mem a).pxNext rest = true := by
        simpa [isChain, Bool.and_eq_true, and_assoc] using hch
      obtain ⟨rfl, hne, hrest⟩ := hch'
      have hcond : 0 < L.uxNumberOfItems ∧ curr ≠ L.xListEndAddr := ⟨hN, hne⟩
      have hlen : rest.length < f := by
        simpa using Nat.lt_of_succ_lt_succ hfuel
      simp [walkAux, hcond, ih _ f hrest hlen]

theorem walkAux_no_escape (L : FreeRTOSList) (P : Nat → Prop)
    (hsent : ∀ a, P a → a ≠ L.xListEndAddr)
    (hclosed : ∀ a, P a → P ((L.mem a).pxNext))
    (hN : 0 < L.uxNumberOfItems) :
    ∀ fuel curr, P curr → (walkAux L fuel curr).2 = false := by
  intro fuel
  induction fuel with
  | zero => intro curr _; rfl
  | succ f ih =>
    intro curr hP
    have hcond : 0 < L.uxNumberOfItems ∧ curr ≠ L.xListEndAddr :=
      ⟨hN, hsent curr hP⟩
    simp [walkAux, hcond, ih _ (hclosed curr hP)]

theorem walkAux_yield_count (L : FreeRTOSList) (P : Nat → Prop)
    (hsent : ∀ a, P a → a ≠ L.xListEndAddr)
    (hclosed : ∀ a, P a → P ((L.mem a).pxNext))
    (hN : 0 < L.uxNumberOfItems) :
    ∀ fuel curr, P curr → (walkAux L fuel curr).1.length = fuel := by
  intro fuel
  induction fuel with
  | zero => intro curr _; rfl
  | succ f ih =>
    intro curr hP
    have hcond : 0 < L.uxNumberOfItems ∧ curr ≠ L.xListEndAddr :=
      ⟨hN, hsent curr hP⟩
    simp [walkAux, hcond, ih _ (hclosed curr hP)]

/-- A list region whose declared count is 1 (trustworthy for this claim) but
whose end-marker chain is corrupted: the nodes at 10 and 20 point at each
other and the chain never revisits the sentinel address 0. -/
def badL : FreeRTOSList :=
  ⟨1, 0, 10, fun a => if a == 10 then ⟨20, 100⟩ else ⟨10, 200⟩⟩

/-- A list region with declared count 0; the sentinel's next pointer (99) is
arbitrary garbage and is never followed. -/
def emptyDeclaredL : FreeRTOSList :=
  ⟨0, 0, 99, fun _ => ⟨0, 0⟩⟩

/-- A well-formed circular list of declared size 2: head 10, node 10 links
to node 20, node 20 links back to the sentinel address 0. -/
def twoElemL : FreeRTOSList :=
  ⟨2, 0, 10, fun a => if a == 10 then ⟨20, 100⟩ else if a == 20 then ⟨0, 200⟩ else ⟨0, 0⟩⟩

/-- C1 counterexample: for the list `badL` the declared count is 1, yet
after 10 loop iterations the walker has yielded 10 owner addresses (more
than the declared count) and the loop has not exited: a corrupted
end-marker pointer with a positive declared count walks forever, because
the count is re-checked but never decremented. -/
theorem walker_corrupted_end_marker_counterexample :
    badL.uxNumberOfItems = 1 ∧
    (yieldsWithin badL 10).length = 10 ∧
    terminatesWithin badL 10 = false := by
  refine ⟨rfl, ?_, ?_⟩ <;> decide

/-- C1 (amended): each traversal step of FreeRTOSList.__iter__ checks both
that the declared count is positive and that the cursor differs from the
sentinel address; a walk with declared count 0 exits at once yielding
nothing, and a walk whose node chain reaches the sentinel terminates
exactly there; but the count is never decremented, so whenever the count
is positive and the cursor stays inside a region of addresses that is
closed under the next-link and never meets the sentinel address, the loop
never exits, at any fuel. -/
theorem walker_termination_amended :
    (∀ L : FreeRTOSList, L.uxNumberOfItems = 0 →
      ∀ fuel, yieldsWithin L fuel = [] ∧
        (1 ≤ fuel → terminatesWithin L fuel = true))
  ∧ (∀ (L : FreeRTOSList) (addrs : List Nat), 0 < L.uxNumberOfItems →
      isChain L L.head addrs = true → ∀ fuel, addrs.length < fuel →
        terminatesWithin L fuel = true)
  ∧ (∀ (L : FreeRTOSList) (P : Nat → Prop), P L.head →
      (∀ a, P a → a ≠ L.xListEndAddr) →
      (∀ a, P a → P ((L.mem a).pxNext)) →
      0 < L.uxNumberOfItems →
      ∀ fuel, terminatesWithin L fuel = false) := by
  refine ⟨?_, ?_, ?_⟩
  · intro L h fuel
    exact walkAux_zero_items L h fuel L.head
  · intro L addrs hN hch fuel hfuel
    unfold terminatesWithin
    rw [walkAux_chain L hN addrs L.head fuel hch hfuel]
  · intro L P hhead hsent hclosed hN fuel
    exact walkAux_no_escape L P hsent hclosed hN fuel L.head hhead

/-- Witness for the amended C1 theorem at concrete lists: the declared-empty
list exits at once with no yields, the well-formed two-element list's walk
exits within 3 iterations, and the corrupted-chain list `badL` never exits
(shown here at fuel 7), all obtained from the amended theorem. -/
theorem walker_termination_amended_witness :
    (yieldsWithin emptyDeclaredL 5 = [] ∧ terminatesWithin emptyDeclaredL 5 = true)
  ∧ terminatesWithin twoElemL 3 = true
  ∧ terminatesWithin badL 7 = false := by
  refine ⟨⟨(walker_termination_amended.1 emptyDeclaredL rfl 5).1,
          (walker_termination_amended.1 emptyDeclaredL rfl 5).2 (by omega)⟩,
         walker_termination_amended.2.1 twoElemL [10, 20] (by decide) (by decide) 3 (by decide),
         walker_termination_amended.2.2 badL (fun a => a = 10 ∨ a = 20) (Or.inl rfl)
           ?_ ?_ (by decide) 7⟩
  · intro a h
    rcases h with h | h <;> simp [h, badL]
  · intro a h
    rcases h with h | h <;> simp [h, badL]

/-- C5: a walk over a list with declared item count 0 yields the empty
sequence at every fuel, regardless of the sentinel's contents, and the
loop exits at once; and for a well-formed circular list of size N ≥ 1
(a chain of N non-sentinel nodes from the head whose last next-link
returns to the sentinel address), the walk yields exactly the N owner
addresses in head-to-tail order and the loop exits. -/
theorem walker_empty_and_wellformed (L : FreeRTOSList) :
    (L.uxNumberOfItems = 0 →
      ∀ fuel, yieldsWithin L fuel = [] ∧
        (1 ≤ fuel → terminatesWithin L fuel = true))
  ∧ (∀ addrs : List Nat, isChain L L.head addrs = true →
      addrs.length = L.uxNumberOfItems → 1 ≤ L.uxNumberOfItems →
      ∀ fuel, L.uxNumberOfItems < fuel →
        yieldsWithin L fuel = addrs.map (fun a => (L.mem a).pvOwner) ∧
        terminatesWithin L fuel = true) := by
  constructor
  · intro h fuel
    exact walkAux_zero_items L h fuel L.head
  · intro addrs hch hlen hN fuel hfuel
    have h := walkAux_chain L (by omega) addrs L.head fuel hch (by omega)
    unfold yieldsWithin terminatesWithin
    rw [h]
    exact ⟨rfl, rfl⟩

/-- Witness for C5 at concrete lists: the declared-empty list yields nothing
(even though its sentinel next-pointer is garbage), and the two-element
well-formed list yields its two owner addresses 100, 200 in head-to-tail
order and terminates. -/
theorem walker_empty_and_wellformed_witness :
    (yieldsWithin emptyDeclaredL 4 = [] ∧ terminatesWithin emptyDeclaredL 4 = true)
  ∧ (yieldsWithin twoElemL 3 = [100, 200] ∧ terminatesWithin twoElemL 3 = true) := by
  refine ⟨⟨((walker_empty_and_wellformed emptyDeclaredL).1 rfl 4).1,
          ((walker_empty_and_wellformed emptyDeclaredL).1 rfl 4).2 (by omega)⟩, ?_⟩
  have h := (walker_empty_and_wellformed twoElemL).2 [10, 20] (by decide) rfl
    (by decide) 3 (by decide)
  simpa [twoElemL] using h

/-- A TCB_t record as read from target memory, with the members that the
TaskVariables catalog can display. -/
structure TCB where
  uxPriority : Int
  pxStack : Nat
  pcTaskName : String
  pxEndOfStack : Nat
  uxCriticalNesting : Int
  uxTCBNumber : Int
  uxMutexesHeld : Int
  ulRunTimeCounter : Int
deriving DecidableEq

/-- One displayed table cell: get_int_var yields a Python int, the other
accessors and the fixed columns yield Python strings. -/
inductive CellVal where
  | intV : Int → CellVal
  | strV : String → CellVal
deriving DecidableEq

/-- A table row, as built by tasklist_to_rows. -/
abbrev Row := List CellVal

/-- The accessor chosen by a TaskVariables member (its get_var_fn field). -/
inductive GetVarFn where
  | get_int_var
  | get_hex_var
  | get_string_var
deriving DecidableEq

/-- One member of the TaskVariables enum: display name, TCB_t member name,
accessor, and optional build-configuration guard (empty string = none). -/
structure TaskVariable where
  name : String
  symbol : String
  get_var_fn : GetVarFn
  config_check : String
deriving DecidableEq

def TaskVariable.PRIORITY : TaskVariable :=
  ⟨"PRIORITY", "uxPriority", .get_int_var, ""⟩

def TaskVariable.STACK : TaskVariable :=
  ⟨"STACK", "pxStack", .get_hex_var, ""⟩

def TaskVariable.NAME : TaskVariable :=
  ⟨"NAME", "pcTaskName", .get_string_var, ""⟩

def TaskVariable.STACK_END : TaskVariable :=
  ⟨"STACK_END", "pxEndOfStack", .get_hex_var, "configRECORD_STACK_HIGH_ADDRESS"⟩

def TaskVariable.CRITICAL_NESTING : TaskVariable :=
  ⟨"CRITICAL_NESTING", "uxCriticalNesting", .get_int_var, "portCRITICAL_NESTING_IN_TCB"⟩

def TaskVariable.TCB_NUM : TaskVariable :=
  ⟨"TCB_NUM", "uxTCBNumber", .get_int_var, "configUSE_TRACE_FACILITY"⟩

def TaskVariable.MUTEXES : TaskVariable :=
  ⟨"MUTEXES", "uxMutexesHeld", .get_int_var, "configUSE_MUTEXES"⟩

def TaskVariable.RUN_TIME : TaskVariable :=
  ⟨"RUN_TIME", "ulRunTimeCounter", .get_int_var, "configGENERATE_RUN_TIME_STATS"⟩

/-- The TaskVariables enum in declared member order. -/
def TaskVariables : List TaskVariable :=
  [TaskVariable.PRIORITY, TaskVariable.STACK, TaskVariable.NAME,
   TaskVariable.STACK_END, TaskVariable.CRITICAL_NESTING,
   TaskVariable.TCB_NUM, TaskVariable.MUTEXES, TaskVariable.RUN_TIME]

/-- TaskVariables.is_valid: the guard is the empty string, or the guarded
config define evaluates to a true value on the target. `cfg` is the
target's build configuration, one truth value per config expression. -/
def TaskVariable.is_valid (v : TaskVariable) (cfg : String → Bool) : Bool :=
  v.config_check == "" || cfg v.config_check

/-- int(tcb[symbol]) for the integer-valued TCB_t members used by the
catalog (pointers read as their addresses). -/
def tcbIntField (t : TCB) (s : String) : Int :=
  if s == "uxPriority" then t.uxPriority
  else if s == "pxStack" then (t.pxStack : Int)
  else if s == "pxEndOfStack" then (t.pxEndOfStack : Int)
  else if s == "uxCriticalNesting" then t.uxCriticalNesting
  else if s == "uxTCBNumber" then t.uxTCBNumber
  else if s == "uxMutexesHeld" then t.uxMutexesHeld
  else if s == "ulRunTimeCounter" then t.ulRunTimeCounter
  else 0

/-- tcb[symbol].string() for the string-valued TCB_t member. -/
def tcbStrField (t : TCB) (s : String) : String :=
  if s == "pcTaskName" then t.pcTaskName else ""

/-- Python hex(n) for the nonnegative values read from TCB_t. -/
def hexOfNat (n : Nat) : String :=
  "0x" ++ String.mk (Nat.toDigits 16 n)

/-- Dispatch of get_var_fn: get_int_var, get_hex_var or get_string_var
applied to the TCB record. -/
def TaskVariable.getVarValue (v : TaskVariable) (t : TCB) : CellVal :=
  match v.get_var_fn with
  | .get_int_var => .intV (tcbIntField t v.symbol)
  | .get_hex_var => .strV (hexOfNat (tcbIntField t v.symbol).toNat)
  | .get_string_var => .strV (tcbStrField t v.symbol)

/-- str(task_ptr): the display form of a task handle address. -/
def ptrStr (a : Nat) : String :=
  hexOfNat a

/-- The CPU cell of a row: current_tcbs.index(task_ptr) when the handle is
in current_tcbs, else the empty string. -/
def coreCell (current_tcbs : List Nat) (task_ptr : Nat) : CellVal :=
  if task_ptr ∈ current_tcbs then .intV (current_tcbs.indexOf task_ptr)
  else .strV ""

/-- The row built by the body of the tasklist_to_rows loop for one task
whose TCB was read as `t`: the fixed handle/state/CPU cells followed by
one cell per guard-valid TaskVariables member, appended in declared
order. -/
def buildCells (cfg : String → Bool) (state : String) (current_tcbs : List Nat)
    (task_ptr : Nat) (t : TCB) : Row :=
  TaskVariables.foldl
    (fun row v => if v.is_valid cfg then row ++ [v.getVarValue t] else row)
    [.strV (ptrStr task_ptr), .strV state, coreCell current_tcbs task_ptr]

/-- get_header: the fixed columns followed by the names of the guard-valid
TaskVariables members, appended in declared order. -/
def get_header (cfg : String → Bool) : List String :=
  TaskVariables.foldl
    (fun headers v => if v.is_valid cfg then headers ++ [v.name] else headers)
    ["ID", "STATE", "CPU"]

/-- The diagnostic printed when a task pointer reads as NULL. -/
def nullPtrMsg : String :=
  "Task pointer is NULL. Stack corruption?"

/-- The gdb error raised when dereferencing an unreadable address. -/
def derefErrMsg (a : Nat) : String :=
  "Cannot access memory at address " ++ ptrStr a

/-- The loop of tasklist_to_rows over the owner addresses yielded by the
walker. Per entry: print the NULL diagnostic when the pointer is 0, then
build the row, which dereferences the pointer; an unreadable TCB raises a
gdb error that aborts the whole call, discarding all rows. Returns the
diagnostics printed before returning or raising, and either the rows or
the error. -/
def rowsFromOwners (tcbMem : Nat → Option TCB) (cfg : String → Bool)
    (state : String) (current_tcbs : List Nat) :
    List Nat → List String × Except String (List Row)
  | [] => ([], .ok [])
  | a :: rest =>
    let diags := if a == 0 then [nullPtrMsg] else []
    match tcbMem a with
    | none => (diags, .error (derefErrMsg a))
    | some t =>
      let r := rowsFromOwners tcbMem cfg state current_tcbs rest
      (diags ++ r.1, r.2.map (fun rs => buildCells cfg state current_tcbs a t :: rs))

/-- The value of a kernel task-handle symbol: pxCurrentTCB is a scalar on
single-core builds and an array with one element per core on SMP builds. -/
inductive SymbolVal where
  | scalar : Nat → SymbolVal
  | array : List Nat → SymbolVal

/-- get_current_tcbs: evaluate pxCurrentTCB (None models a failed symbol
lookup, which raises); an array contributes one handle per element in
index order, a scalar contributes a single-element list. -/
def get_current_tcbs (s : Option SymbolVal) : Except String (List Nat) :=
  match s with
  | none => .error "No symbol pxCurrentTCB in current context."
  | some (.scalar v) => .ok [v]
  | some (.array vs) => .ok vs

/-- tcb['pcTaskName'].string() through a TCB pointer; unreadable memory
raises. -/
def readTaskName (tcbMem : Nat → Option TCB) (a : Nat) : Except String String :=
  match tcbMem a with
  | none => .error (derefErrMsg a)
  | some t => .ok t.pcTaskName

/-- FreeRTOSBreakpoint.stop: collect the names of the currently running
tasks and report a stop exactly when the breakpoint's task name is among
them; any failure during the lookup propagates as an error. -/
def FreeRTOSBreakpoint_stop (pxCurrentTCB : Option SymbolVal)
    (tcbMem : Nat → Option TCB) (task_name : String) : Except String Bool :=
  match get_current_tcbs pxCurrentTCB with
  | .error e => .error e
  | .ok tcbs =>
    match tcbs.mapM (readTaskName tcbMem) with
    | .error e => .error e
    | .ok current_task_names => .ok (current_task_names.contains task_name)

/-- Outcome of the freertos break command: the usage message is printed, a
breakpoint is created on (task, location), or an uncaught Python
IndexError escapes. -/
inductive BreakCmdResult where
  | usage : String → BreakCmdResult
  | created : String → String → BreakCmdResult
  | indexError : BreakCmdResult
deriving DecidableEq

/-- The usage message printed by FreeRTOSCreateBreakpoint.invoke. -/
def noArgsMsg : String :=
  "No arguments given. Must have 2 arguments in order of \"target_task target_location\"."

/-- FreeRTOSCreateBreakpoint.invoke on the split argument list: an empty
argv prints the usage message and returns; otherwise argv[0] and argv[1]
are read (argv[1] raises IndexError when only one argument was given) and
a FreeRTOSBreakpoint is created from the first two arguments. -/
def FreeRTOSCreateBreakpoint_invoke (argv : List String) : BreakCmdResult :=
  match argv with
  | [] => .usage noArgsMsg
  | [_] => .indexError
  | t :: f :: _ => .created t f

/-- The value of a kernel task-list symbol: a single List_t, or an array of
List_t (pxReadyTasksLists has one list per priority). -/
inductive ListsSymbolVal where
  | single : FreeRTOSList → ListsSymbolVal
  | array : List FreeRTOSList → ListsSymbolVal

/-- One member of the TaskLists enum: kernel symbol name and the
single-letter scheduling state of tasks found on that list. -/
structure TaskListEntry where
  symbol : String
  state : String
deriving DecidableEq

/-- The TaskLists enum in declared member order. -/
def TaskLists : List TaskListEntry :=
  [⟨"pxReadyTasksLists", "R"⟩, ⟨"xSuspendedTaskList", "S"⟩,
   ⟨"xDelayedTaskList1", "B"⟩, ⟨"xDelayedTaskList2", "B"⟩,
   ⟨"xTasksWaitingTermination", "D"⟩]

/-- The target environment a freertos tasks invocation reads: the
pxCurrentTCB symbol (None = lookup fails), the task-list symbols, TCB
memory, the build configuration, and the fuel bounding each generator
walk. -/
structure Env where
  pxCurrentTCB : Option SymbolVal
  lists : String → ListsSymbolVal
  tcbMem : Nat → Option TCB
  cfg : String → Bool
  fuel : Nat

/-- The array dispatch of FreeRTOSTaskInfo.invoke: an array-typed symbol
contributes each element in index order, a single list contributes
itself. -/
def resolveLists (v : ListsSymbolVal) : List FreeRTOSList :=
  match v with
  | .single L => [L]
  | .array ls => ls

/-- All (list, state) pairs scanned by FreeRTOSTaskInfo.invoke, in registry
order, with array symbols expanded in index order. -/
def registryListsOf (env : Env) : List (FreeRTOSList × String) :=
  TaskLists.flatMap fun tl =>
    (resolveLists (env.lists tl.symbol)).map fun L => (L, tl.state)

/-- tasklist_to_rows: build the FreeRTOSList view of one List_t and run the
row-building loop over the owners its iterator yields. -/
def tasklist_to_rows (env : Env) (tasklist : FreeRTOSList) (state : String)
    (current_tcbs : List Nat) : List String × Except String (List Row) :=
  rowsFromOwners env.tcbMem env.cfg state current_tcbs
    (yieldsWithin tasklist env.fuel)

/-- The table.extend loop of FreeRTOSTaskInfo.invoke over the resolved
(list, state) pairs; an error raised while parsing one list aborts the
invocation, discarding the table. -/
def rowsForLists (env : Env) (current_tcbs : List Nat) :
    List (FreeRTOSList × String) → List String × Except String (List Row)
  | [] => ([], .ok [])
  | p :: rest =>
    let r := tasklist_to_rows env p.1 p.2 current_tcbs
    match r.2 with
    | .error e => (r.1, .error e)
    | .ok rows =>
      let rr := rowsForLists env current_tcbs rest
      (r.1 ++ rr.1, rr.2.map (fun more => rows ++ more))

/-- What a freertos tasks invocation finally prints: either a plain message
or the formatted table (header plus rows). -/
inductive Output where
  | msg : String → Output
  | table : List String → List Row → Output
deriving DecidableEq

/-- The message printed when the assembled table is empty. -/
def noTasksMsg : String :=
  "There are currently no tasks. The program may not have created any tasks yet."

/-- FreeRTOSTaskInfo.invoke: resolve the current task handles, scan every
registry list in declared order extending the table, then either report
that there are no tasks or print the table under get_header. Any raised
error aborts the invocation. Returns the diagnostics printed on the way
and the final outcome. -/
def FreeRTOSTaskInfo_invoke (env : Env) : List String × Except String Output :=
  match get_current_tcbs env.pxCurrentTCB with
  | .error e => ([], .error e)
  | .ok current_tcbs =>
    let r := rowsForLists env current_tcbs (registryListsOf env)
    match r.2 with
    | .error e => (r.1, .error e)
    | .ok table =>
      if table.length = 0 then (r.1, .ok (.msg noTasksMsg))
      else (r.1, .ok (.table (get_header env.cfg) table))

/-- The row tasklist_to_rows builds for a readable owner address (the
missing case is never reached on readable addresses). -/
def rowOf (tcbMem : Nat → Option TCB) (cfg : String → Bool) (state : String)
    (current_tcbs : List Nat) (a : Nat) : Row :=
  match tcbMem a with
  | some t => buildCells cfg state current_tcbs a t
  | none => []

/-- The CPU cell of a built row (position 2, after handle and state). -/
def coreOf (r : Row) : Option CellVal :=
  r.get? 2

/-- Whether a CPU cell carries a core index rather than the empty string. -/
def cellMarked (c : Option CellVal) : Bool :=
  c != some (CellVal.strV "")

/-- Whether a built row is marked as currently running: its CPU cell is not
the empty string. -/
def rowMarked (r : Row) : Bool :=
  cellMarked (coreOf r)

/-- The full snapshot row list in registry order, each list contributing its
walked owners in head-to-tail order. -/
def snapRows (env : Env) (current_tcbs : List Nat) : List Row :=
  (registryListsOf env).flatMap fun p =>
    (yieldsWithin p.1 env.fuel).map (rowOf env.tcbMem env.cfg p.2 current_tcbs)

/-- All owner addresses walked by an invocation, in row order. -/
def allOwners (env : Env) : List Nat :=
  (registryListsOf env).flatMap fun p => yieldsWithin p.1 env.fuel

theorem foldl_filter_append {α β : Type} (p : α → Bool) (f : α → β) :
    ∀ (l : List α) (acc : List β),
      l.foldl (fun acc v => if p v then acc ++ [f v] else acc) acc
        = acc ++ (l.filter p).map f := by
  intro l
  induction l with
  | nil => intro acc; simp
  | cons a t ih =>
    intro acc
    by_cases hp : p a = true
    · simp [List.foldl_cons, hp, ih, List.filter_cons]
    · have hp' : p a = false := by simpa using hp
      simp [List.foldl_cons, hp', ih, List.filter_cons]

theorem name_mem_filter_map_iff (p : TaskVariable → Bool) (l : List TaskVariable)
    (v : TaskVariable) (hnd : (l.map TaskVariable.name).Nodup) (hv : v ∈ l) :
    v.name ∈ (l.filter p).map TaskVariable.name ↔ p v = true := by
  constructor
  · intro hmem
    rcases List.mem_map.mp hmem with ⟨w, hw, hwname⟩
    have hwl : w ∈ l := List.mem_of_mem_filter hw
    have hpw : p w = true := List.of_mem_filter hw
    have hwv : w = v := List.inj_on_of_nodup_map hnd hwl hv hwname
    rwa [hwv] at hpw
  · intro hp
    exact List.mem_map.mpr ⟨v, List.mem_filter.mpr ⟨hv, hp⟩, rfl⟩

theorem taskVariables_names_nodup :
    (TaskVariables.map TaskVariable.name).Nodup := by
  decide

theorem taskVariables_names_not_fixed :
    ∀ v ∈ TaskVariables, v.name ∉ (["ID", "STATE", "CPU"] : List String) := by
  decide

/-- C6: under any build-configuration guard valuation, the header is the
three fixed columns followed by the names of exactly the guard-true
attributes in declared catalog order; every built row is the three fixed
cells followed by the values of exactly the guard-true attributes in the
same declared order; and an attribute's name appears in the header exactly
when its guard holds. -/
theorem attribute_gating (cfg : String → Bool) :
    get_header cfg
      = ["ID", "STATE", "CPU"]
        ++ (TaskVariables.filter (fun v => v.is_valid cfg)).map TaskVariable.name
  ∧ (∀ (state : String) (current_tcbs : List Nat) (a : Nat) (t : TCB),
      buildCells cfg state current_tcbs a t
        = [.strV (ptrStr a), .strV state, coreCell current_tcbs a]
          ++ (TaskVariables.filter (fun v => v.is_valid cfg)).map
              (fun v => v.getVarValue t))
  ∧ (∀ v, v ∈ TaskVariables →
      (v.name ∈ get_header cfg ↔ v.is_valid cfg = true)) := by
  refine ⟨foldl_filter_append _ _ _ _,
         fun state cur a t => foldl_filter_append _ _ _ _, ?_⟩
  intro v hv
  have h1 : get_header cfg
      = ["ID", "STATE", "CPU"]
        ++ (TaskVariables.filter (fun v => v.is_valid cfg)).map TaskVariable.name :=
    foldl_filter_append _ _ _ _
  have hfix : v.name ∉ (["ID", "STATE", "CPU"] : List String) :=
    taskVariables_names_not_fixed v hv
  rw [h1, List.mem_append]
  constructor
  · rintro (h | h)
    · exact absurd h hfix
    · exact (name_mem_filter_map_iff _ _ _ taskVariables_names_nodup hv).mp h
  · intro hval
    exact Or.inr ((name_mem_filter_map_iff _ _ _ taskVariables_names_nodup hv).mpr hval)

/-- Witness for C6 with every guard false: the header holds exactly the
fixed columns and the three unguarded attributes, and the guarded MUTEXES
attribute appears in the header exactly when its guard holds (here:
neither). -/
theorem attribute_gating_witness :
    get_header (fun _ => false)
      = ["ID", "STATE", "CPU", "PRIORITY", "STACK", "NAME"]
  ∧ ("MUTEXES" ∈ get_header (fun _ => false) ↔
      TaskVariable.MUTEXES.is_valid (fun _ => false) = true) := by
  refine ⟨?_, (attribute_gating (fun _ => false)).2.2 TaskVariable.MUTEXES (by decide)⟩
  rw [(attribute_gating (fun _ => false)).1]
  decide

/-- The TCB memory used by the concrete corruption scenario: readable task
records live at addresses 5 and 7, every other address (the null address
0 in particular) is unreadable. -/
def c2TcbMem : Nat → Option TCB := fun a =>
  if a == 5 then some ⟨1, 100, "taskA", 0, 0, 0, 0, 0⟩
  else if a == 7 then some ⟨2, 200, "taskB", 0, 0, 0, 0, 0⟩
  else none

/-- C2 (code bug evidence): on a traversal yielding owner addresses
5, 0, 7 — the middle entry's owner record address reads as null — the
row builder does print the corruption diagnostic, but then still
dereferences the null owner to read its record fields, so the read
raises and the whole call aborts: no rows at all are produced, instead of
excluding only the corrupt entry and continuing with entry 7. -/
theorem null_owner_entry_aborts_rows :
    rowsFromOwners c2TcbMem (fun _ => false) "R" [] [5, 0, 7]
      = ([nullPtrMsg], .error (derefErrMsg 0)) := by
  rfl

/-- C4 (code bug evidence): the breakpoint-creation command checks only for
an empty argument list; invoked with exactly one argument it raises an
uncaught IndexError instead of printing the usage message, and invoked
with three arguments it silently creates a breakpoint from the first two
instead of printing the usage message and doing nothing. -/
theorem break_command_arg_count_behavior :
    FreeRTOSCreateBreakpoint_invoke [] = .usage noArgsMsg
  ∧ FreeRTOSCreateBreakpoint_invoke ["task1"] = .indexError
  ∧ FreeRTOSCreateBreakpoint_invoke ["task1", "loc", "extra"]
      = .created "task1" "loc" := by
  exact ⟨rfl, rfl, rfl⟩

/-- C3 counterexample: when the pxCurrentTCB lookup fails (target not
initialized), the stop predicate does not evaluate to the non-match
Except.ok false — it propagates the lookup error. -/
theorem breakpoint_stop_error_counterexample :
    FreeRTOSBreakpoint_stop none (fun _ => none) "worker"
      = .error "No symbol pxCurrentTCB in current context."
  ∧ FreeRTOSBreakpoint_stop none (fun _ => none) "worker"
      ≠ .ok false := by
  refine ⟨rfl, ?_⟩
  intro h
  exact Except.noConfusion h

/-- C3 (amended): the stop predicate contains no error handling: when the
current-task lookup fails, or when reading any running task's name fails,
the error propagates out of the predicate; only when the whole lookup
succeeds does the predicate return a match decision, namely whether the
breakpoint's task name is among the running tasks' names. -/
theorem breakpoint_stop_amended (pxCurrentTCB : Option SymbolVal)
    (tcbMem : Nat → Option TCB) (task_name : String) :
    (∀ e, get_current_tcbs pxCurrentTCB = .error e →
      FreeRTOSBreakpoint_stop pxCurrentTCB tcbMem task_name = .error e)
  ∧ (∀ tcbs names, get_current_tcbs pxCurrentTCB = .ok tcbs →
      tcbs.mapM (readTaskName tcbMem) = .ok names →
      FreeRTOSBreakpoint_stop pxCurrentTCB tcbMem task_name
        = .ok (names.contains task_name))
  ∧ (∀ tcbs e, get_current_tcbs pxCurrentTCB = .ok tcbs →
      tcbs.mapM (readTaskName tcbMem) = .error e →
      FreeRTOSBreakpoint_stop pxCurrentTCB tcbMem task_name = .error e) := by
  refine ⟨?_, ?_, ?_⟩
  · intro e he
    simp [FreeRTOSBreakpoint_stop, he]
  · intro tcbs names hok hnames
    simp only [FreeRTOSBreakpoint_stop, hok, hnames]
  · intro tcbs e hok herr
    simp only [FreeRTOSBreakpoint_stop, hok, herr]

/-- The TCB memory used by the breakpoint witness: one readable record at
address 5 whose task is named worker. -/
def workerTcbMem : Nat → Option TCB := fun a =>
  if a == 5 then some ⟨1, 100, "worker", 0, 0, 0, 0, 0⟩ else none

/-- Witness for the amended C3 theorem at concrete targets: a failed
symbol lookup propagates its error, a successful lookup of a running task
named worker matches a breakpoint on worker, and an unreadable running
TCB propagates the read error. -/
theorem breakpoint_stop_amended_witness :
    FreeRTOSBreakpoint_stop none (fun _ => none) "main"
      = .error "No symbol pxCurrentTCB in current context."
  ∧ FreeRTOSBreakpoint_stop (some (.scalar 5)) workerTcbMem "worker" = .ok true
  ∧ FreeRTOSBreakpoint_stop (some (.scalar 9)) workerTcbMem "worker"
      = .error (derefErrMsg 9) := by
  refine ⟨(breakpoint_stop_amended none (fun _ => none) "main").1 _ rfl, ?_, ?_⟩
  · have h := (breakpoint_stop_amended (some (.scalar 5)) workerTcbMem "worker").2.1
      [5] ["worker"] rfl (by rfl)
    simpa using h
  · exact (breakpoint_stop_amended (some (.scalar 9)) workerTcbMem "worker").2.2
      [9] (derefErrMsg 9) rfl (by rfl)

theorem rowOf_eq_buildCells {tcbMem : Nat → Option TCB} {cfg : String → Bool}
    {state : String} {cur : List Nat} {a : Nat} {t : TCB}
    (ht : tcbMem a = some t) :
    rowOf tcbMem cfg state cur a = buildCells cfg state cur a t := by
  simp [rowOf, ht]

theorem buildCells_eq (cfg : String → Bool) (state : String) (cur : List Nat)
    (a : Nat) (t : TCB) :
    buildCells cfg state cur a t
      = [.strV (ptrStr a), .strV state, coreCell cur a]
        ++ (TaskVariables.filter (fun v => v.is_valid cfg)).map
            (fun v => v.getVarValue t) :=
  foldl_filter_append _ _ _ _

theorem get_header_eq (cfg : String → Bool) :
    get_header cfg
      = ["ID", "STATE", "CPU"]
        ++ (TaskVariables.filter (fun v => v.is_valid cfg)).map TaskVariable.name :=
  foldl_filter_append _ _ _ _

theorem buildCells_length (cfg : String → Bool) (state : String)
    (cur : List Nat) (a : Nat) (t : TCB) :
    (buildCells cfg state cur a t).length = (get_header cfg).length := by
  rw [buildCells_eq, get_header_eq]
  simp

theorem rowsFromOwners_ok (tcbMem : Nat → Option TCB) (cfg : String → Bool)
    (state : String) (cur : List Nat) :
    ∀ owners : List Nat, (∀ a ∈ owners, (tcbMem a).isSome = true) →
      (rowsFromOwners tcbMem cfg state cur owners).2
        = .ok (owners.map (rowOf tcbMem cfg state cur)) := by
  intro owners
  induction owners with
  | nil => intro _; rfl
  | cons a rest ih =>
    intro h
    obtain ⟨t, ht⟩ := Option.isSome_iff_exists.mp (h a (List.mem_cons_self a rest))
    have hrest := ih fun b hb => h b (List.mem_cons_of_mem a hb)
    simp [rowsFromOwners, ht, hrest, rowOf, Except.map]

theorem rowsFromOwners_ok_inv (tcbMem : Nat → Option TCB) (cfg : String → Bool)
    (state : String) (cur : List Nat) :
    ∀ (owners : List Nat) (rs : List Row),
      (rowsFromOwners tcbMem cfg state cur owners).2 = .ok rs →
      (∀ a ∈ owners, (tcbMem a).isSome = true) ∧
        rs = owners.map (rowOf tcbMem cfg state cur) := by
  intro owners
  induction owners with
  | nil =>
    intro rs h
    simp only [rowsFromOwners, Except.ok.injEq] at h
    subst h
    exact ⟨by simp, by simp⟩
  | cons a rest ih =>
    intro rs h
    cases ht : tcbMem a with
    | none =>
      simp only [rowsFromOwners, ht] at h
      exact absurd h (by simp)
    | some t =>
      simp only [rowsFromOwners, ht] at h
      cases hr : (rowsFromOwners tcbMem cfg state cur rest).2 with
      | error e =>
        rw [hr] at h
        exact absurd h (by simp [Except.map])
      | ok rest_rows =>
        rw [hr] at h
        simp only [Except.map, Except.ok.injEq] at h
        obtain ⟨hread, hrs⟩ := ih rest_rows hr
        subst h
        refine ⟨?_, ?_⟩
        · intro b hb
          rcases List.mem_cons.mp hb with rfl | hb'
          · simp [ht]
          · exact hread b hb'
        · rw [hrs]
          simp [rowOf, ht]

theorem rowsForLists_ok (env : Env) (cur : List Nat) :
    ∀ pairs : List (FreeRTOSList × String),
      (∀ p ∈ pairs, ∀ a ∈ yieldsWithin p.1 env.fuel,
        (env.tcbMem a).isSome = true) →
      (rowsForLists env cur pairs).2
        = .ok (pairs.flatMap fun p =>
            (yieldsWithin p.1 env.fuel).map (rowOf env.tcbMem env.cfg p.2 cur)) := by
  intro pairs
  induction pairs with
  | nil => intro _; rfl
  | cons p rest ih =>
    intro h
    have hhead : (tasklist_to_rows env p.1 p.2 cur).2
        = .ok ((yieldsWithin p.1 env.fuel).map (rowOf env.tcbMem env.cfg p.2 cur)) :=
      rowsFromOwners_ok _ _ _ _ _ (h p (List.mem_cons_self p rest))
    have hrest := ih fun q hq => h q (List.mem_cons_of_mem p hq)
    simp [rowsForLists, hhead, hrest, Except.map, List.flatMap_cons]

theorem rowsForLists_ok_inv (env : Env) (cur : List Nat) :
    ∀ (pairs : List (FreeRTOSList × String)) (rs : List Row),
      (rowsForLists env cur pairs).2 = .ok rs →
      (∀ p ∈ pairs, ∀ a ∈ yieldsWithin p.1 env.fuel,
        (env.tcbMem a).isSome = true) ∧
      rs = pairs.flatMap fun p =>
        (yieldsWithin p.1 env.fuel).map (rowOf env.tcbMem env.cfg p.2 cur) := by
  intro pairs
  induction pairs with
  | nil =>
    intro rs h
    simp only [rowsForLists, Except.ok.injEq] at h
    subst h
    exact ⟨by simp, by simp⟩
  | cons p rest ih =>
    intro rs h
    simp only [rowsForLists] at h
    cases hp : (tasklist_to_rows env p.1 p.2 cur).2 with
    | error e =>
      rw [hp] at h
      exact absurd h (by simp)
    | ok head_rows =>
      rw [hp] at h
      cases hr : (rowsForLists env cur rest).2 with
      | error e =>
        rw [hr] at h
        exact absurd h (by simp [Except.map])
      | ok rest_rows =>
        rw [hr] at h
        simp only [Except.map, Except.ok.injEq] at h
        obtain ⟨hread1, hrows1⟩ := rowsFromOwners_ok_inv _ _ _ _ _ head_rows hp
        obtain ⟨hread2, hrows2⟩ := ih rest_rows hr
        subst h
        refine ⟨?_, ?_⟩
        · intro q hq a ha
          rcases List.mem_cons.mp hq with rfl | hq'
          · exact hread1 a ha
          · exact hread2 q hq' a ha
        · rw [hrows1, hrows2, List.flatMap_cons]

/-- C10: whenever a freertos tasks invocation prints a table, the printed
header is get_header under the target's build configuration, and every
printed row has exactly as many cells as the header has columns. -/
theorem row_width_matches_header (env : Env) (hdr : List String) (rows : List Row)
    (h : (FreeRTOSTaskInfo_invoke env).2 = .ok (.table hdr rows)) :
    hdr = get_header env.cfg ∧ ∀ r ∈ rows, r.length = hdr.length := by
  simp only [FreeRTOSTaskInfo_invoke] at h
  cases hcur : get_current_tcbs env.pxCurrentTCB with
  | error e =>
    simp only [hcur] at h
    exact absurd h (by simp)
  | ok cur =>
    simp only [hcur] at h
    cases htable : (rowsForLists env cur (registryListsOf env)).2 with
    | error e =>
      simp only [htable] at h
      exact absurd h (by simp)
    | ok table =>
      simp only [htable] at h
      by_cases hlen : table.length = 0
      · rw [if_pos hlen] at h
        exact absurd h (by simp)
      · rw [if_neg hlen] at h
        simp only [Except.ok.injEq, Output.table.injEq] at h
        obtain ⟨hh, hrws⟩ := h
        subst hh
        subst hrws
        refine ⟨rfl, ?_⟩
        obtain ⟨hread, hrs⟩ := rowsForLists_ok_inv env cur _ table htable
        intro r hr
        rw [hrs] at hr
        rcases List.mem_flatMap.mp hr with ⟨p, hp, hrm⟩
        rcases List.mem_map.mp hrm with ⟨a, ha, rfl⟩
        obtain ⟨t, ht⟩ := Option.isSome_iff_exists.mp (hread p hp a ha)
        rw [rowOf_eq_buildCells ht]
        exact buildCells_length _ _ _ _ _

/-- C9: given a successful scan, the invocation reports the distinct
no-tasks message exactly when the assembled table is empty, and prints
the table (never that message) when at least one row exists. -/
theorem empty_snapshot_reports_message (env : Env) (cur : List Nat)
    (diags : List String) (rows : List Row)
    (hcur : get_current_tcbs env.pxCurrentTCB = .ok cur)
    (hrows : rowsForLists env cur (registryListsOf env) = (diags, .ok rows)) :
    ((FreeRTOSTaskInfo_invoke env).2 = .ok (.msg noTasksMsg) ↔ rows = [])
  ∧ (rows ≠ [] → (FreeRTOSTaskInfo_invoke env).2
      = .ok (.table (get_header env.cfg) rows)) := by
  have h2 : (rowsForLists env cur (registryListsOf env)).2 = .ok rows := by
    rw [hrows]
  by_cases hempty : rows = []
  · subst hempty
    constructor
    · simp [FreeRTOSTaskInfo_invoke, hcur, h2]
    · intro hne
      exact absurd rfl hne
  · have hlen : ¬ rows.length = 0 := by
      simpa [List.length_eq_zero] using hempty
    constructor
    · constructor
      · intro hmsg
        simp [FreeRTOSTaskInfo_invoke, hcur, h2, hlen] at hmsg
      · intro he
        exact absurd he hempty
    · intro _
      simp [FreeRTOSTaskInfo_invoke, hcur, h2, hlen]

/-- The environment of a target on which the scheduler has created no
tasks yet: every task list is empty. -/
def envNoTasks : Env :=
  ⟨some (.scalar 1), fun _ => .single emptyDeclaredL, fun _ => none,
   fun _ => false, 3⟩

/-- Witness for C9: on the no-tasks target, the invocation yields the
distinct no-tasks message, not a table. -/
theorem empty_snapshot_reports_message_witness :
    (FreeRTOSTaskInfo_invoke envNoTasks).2 = .ok (.msg noTasksMsg) :=
  (empty_snapshot_reports_message envNoTasks [1] [] [] rfl rfl).1.mpr rfl

/-- C7: under a successful current-task lookup and with every walked owner
record readable, the assembled rows are exactly snapRows: the
concatenation, in the fixed registry order (the Ready priority array
expanded element by element in index order, then Suspended, the two
Blocked delayed lists, and Deleted), of each list's rows in head-to-tail
traversal order; and when nonempty, those are exactly the rows the
invocation prints, with no reordering of any kind. -/
theorem snapshot_row_order (env : Env) (cur : List Nat)
    (hcur : get_current_tcbs env.pxCurrentTCB = .ok cur)
    (hread : ∀ a ∈ allOwners env, (env.tcbMem a).isSome = true) :
    (rowsForLists env cur (registryListsOf env)).2 = .ok (snapRows env cur)
  ∧ snapRows env cur
      = ((resolveLists (env.lists "pxReadyTasksLists")).flatMap fun L =>
          (yieldsWithin L env.fuel).map (rowOf env.tcbMem env.cfg "R" cur))
        ++ ((resolveLists (env.lists "xSuspendedTaskList")).flatMap fun L =>
          (yieldsWithin L env.fuel).map (rowOf env.tcbMem env.cfg "S" cur))
        ++ ((resolveLists (env.lists "xDelayedTaskList1")).flatMap fun L =>
          (yieldsWithin L env.fuel).map (rowOf env.tcbMem env.cfg "B" cur))
        ++ ((resolveLists (env.lists "xDelayedTaskList2")).flatMap fun L =>
          (yieldsWithin L env.fuel).map (rowOf env.tcbMem env.cfg "B" cur))
        ++ ((resolveLists (env.lists "xTasksWaitingTermination")).flatMap fun L =>
          (yieldsWithin L env.fuel).map (rowOf env.tcbMem env.cfg "D" cur))
  ∧ (snapRows env cur ≠ [] →
      (FreeRTOSTaskInfo_invoke env).2
        = .ok (.table (get_header env.cfg) (snapRows env cur))) := by
  have hread' : ∀ p ∈ registryListsOf env, ∀ a ∈ yieldsWithin p.1 env.fuel,
      (env.tcbMem a).isSome = true := by
    intro p hp a ha
    exact hread a (List.mem_flatMap.mpr ⟨p, hp, ha⟩)
  have h1 : (rowsForLists env cur (registryListsOf env)).2 = .ok (snapRows env cur) :=
    rowsForLists_ok env cur _ hread'
  refine ⟨h1, ?_, ?_⟩
  · simp [snapRows, registryListsOf, TaskLists, List.flatMap_cons,
      List.flatMap_map]
  · intro hne
    have hlen : ¬ (snapRows env cur).length = 0 := by
      simpa [List.length_eq_zero] using hne
    simp [FreeRTOSTaskInfo_invoke, hcur, h1, hlen]

/-- TCB memory of the three-task example scenario: task records A, B, C
live at addresses 500, 600, 700. -/
def exTcbMem : Nat → Option TCB := fun a =>
  if a == 500 then some ⟨1, 100, "taskA", 0, 0, 0, 0, 0⟩
  else if a == 600 then some ⟨2, 256, "taskB", 0, 0, 0, 0, 0⟩
  else if a == 700 then some ⟨3, 512, "taskC", 0, 0, 0, 0, 0⟩
  else none

/-- Priority-0 ready list of the example: one node at 110 owned by task A
(handle 500), linking back to its sentinel at 1000. -/
def exReadyA : FreeRTOSList :=
  ⟨1, 1000, 110, fun _ => ⟨1000, 500⟩⟩

/-- Priority-1 ready list of the example: empty. -/
def exReadyEmpty : FreeRTOSList :=
  ⟨0, 1100, 1100, fun _ => ⟨0, 0⟩⟩

/-- Priority-2 ready list of the example: nodes at 210 and 220 owned by
tasks B (600) and C (700), the last linking back to the sentinel 1200. -/
def exReadyBC : FreeRTOSList :=
  ⟨2, 1200, 210,
   fun a => if a == 210 then ⟨220, 600⟩ else if a == 220 then ⟨1200, 700⟩ else ⟨0, 0⟩⟩

/-- The example target: a Ready array of 3 priority lists holding A | none |
B, C; every other registry list empty; the running handle 999 matches no
walked task. -/
def exEnv : Env :=
  ⟨some (.scalar 999),
   fun s => if s == "pxReadyTasksLists" then .array [exReadyA, exReadyEmpty, exReadyBC]
            else .single emptyDeclaredL,
   exTcbMem, fun _ => false, 5⟩

/-- The three rows of the example snapshot, in order A, B, C, all in state
R, none marked as running. -/
def exRows : List Row :=
  [[.strV "0x1f4", .strV "R", .strV "", .intV 1, .strV "0x64", .strV "taskA"],
   [.strV "0x258", .strV "R", .strV "", .intV 2, .strV "0x100", .strV "taskB"],
   [.strV "0x2bc", .strV "R", .strV "", .intV 3, .strV "0x200", .strV "taskC"]]

/-- Witness for C7: on the example target the invocation prints exactly the
rows for A, B, C in that order, all tagged R, with no row for the empty
priority. -/
theorem snapshot_row_order_witness :
    (FreeRTOSTaskInfo_invoke exEnv).2
      = .ok (.table (get_header exEnv.cfg) exRows) := by
  have h := snapshot_row_order exEnv [999] rfl (by decide)
  have hrows : snapRows exEnv [999] = exRows := by decide
  have hne : snapRows exEnv [999] ≠ [] := by
    rw [hrows]
    simp [exRows]
  rw [h.2.2 hne, hrows]

/-- Witness for C10 at the example target: the header under its
configuration has the 6 columns, and each of the three printed rows has
exactly 6 cells. -/
theorem row_width_matches_header_witness :
    get_header exEnv.cfg = ["ID", "STATE", "CPU", "PRIORITY", "STACK", "NAME"]
  ∧ ∀ r ∈ exRows, r.length = (get_header exEnv.cfg).length := by
  have h := row_width_matches_header exEnv (get_header exEnv.cfg) exRows (by rfl)
  exact ⟨by decide, h.2⟩

theorem coreOf_buildCells (cfg : String → Bool) (state : String)
    (cur : List Nat) (a : Nat) (t : TCB) :
    coreOf (buildCells cfg state cur a t) = some (coreCell cur a) := by
  rw [buildCells_eq]
  rfl

theorem coreOf_rowOf {tcbMem : Nat → Option TCB} {cfg : String → Bool}
    {state : String} {cur : List Nat} {a : Nat} {t : TCB}
    (ht : tcbMem a = some t) :
    coreOf (rowOf tcbMem cfg state cur a) = some (coreCell cur a) := by
  rw [rowOf_eq_buildCells ht, coreOf_buildCells]

theorem cellMarked_coreCell (cur : List Nat) (a : Nat) :
    cellMarked (some (coreCell cur a)) = decide (a ∈ cur) := by
  by_cases h : a ∈ cur <;> simp [cellMarked, coreCell, h, bne_iff_ne]

theorem segs_map_coreOf (env : Env) (cur : List Nat) :
    ∀ pairs : List (FreeRTOSList × String),
      (∀ p ∈ pairs, ∀ a ∈ yieldsWithin p.1 env.fuel,
        (env.tcbMem a).isSome = true) →
      ((pairs.flatMap fun p =>
          (yieldsWithin p.1 env.fuel).map
            (rowOf env.tcbMem env.cfg p.2 cur)).map coreOf)
        = ((pairs.flatMap fun p => yieldsWithin p.1 env.fuel).map
            (fun a => some (coreCell cur a))) := by
  intro pairs
  induction pairs with
  | nil => intro _; rfl
  | cons p rest ih =>
    intro h
    have hseg : ((yieldsWithin p.1 env.fuel).map
          (rowOf env.tcbMem env.cfg p.2 cur)).map coreOf
        = (yieldsWithin p.1 env.fuel).map (fun a => some (coreCell cur a)) := by
      rw [List.map_map]
      apply List.map_congr_left
      intro a ha
      obtain ⟨t, ht⟩ := Option.isSome_iff_exists.mp
        (h p (List.mem_cons_self p rest) a ha)
      simp [Function.comp, coreOf_rowOf ht]
    simp [List.flatMap_cons, List.map_append, hseg,
      ih (fun q hq => h q (List.mem_cons_of_mem p hq))]

theorem snapRows_map_coreOf (env : Env) (cur : List Nat)
    (hread : ∀ a ∈ allOwners env, (env.tcbMem a).isSome = true) :
    (snapRows env cur).map coreOf
      = (allOwners env).map (fun a => some (coreCell cur a)) := by
  have hread' : ∀ p ∈ registryListsOf env, ∀ a ∈ yieldsWithin p.1 env.fuel,
      (env.tcbMem a).isSome = true := by
    intro p hp a ha
    exact hread a (List.mem_flatMap.mpr ⟨p, hp, ha⟩)
  exact segs_map_coreOf env cur (registryListsOf env) hread'

theorem map_eq_filter_map {α β γ : Type} (p : γ → Bool) (f : α → γ) (g : β → γ) :
    ∀ (l₁ : List α) (l₂ : List β), l₁.map f = l₂.map g →
      (l₁.filter (fun a => p (f a))).map f
        = (l₂.filter (fun b => p (g b))).map g := by
  intro l₁
  induction l₁ with
  | nil =>
    intro l₂ h
    cases l₂ with
    | nil => rfl
    | cons b t₂ => simp at h
  | cons a t ih =>
    intro l₂ h
    cases l₂ with
    | nil => simp at h
    | cons b t₂ =>
      simp only [List.map_cons, List.cons.injEq] at h
      obtain ⟨hab, ht⟩ := h
      by_cases hp : p (f a) = true
      · have hp2 : p (g b) = true := by rw [← hab]; exact hp
        simp [List.filter_cons, hp, hp2, hab, ih t₂ ht]
      · have hp2 : p (g b) = false := by rw [← hab]; simpa using hp
        simp [List.filter_cons, hp, hp2, ih t₂ ht]

theorem snapRows_filter_marked (env : Env) (cur : List Nat)
    (hread : ∀ a ∈ allOwners env, (env.tcbMem a).isSome = true) :
    ((snapRows env cur).filter rowMarked).map coreOf
      = ((allOwners env).filter (fun a => decide (a ∈ cur))).map
          (fun a => some (coreCell cur a)) := by
  have h2 := map_eq_filter_map cellMarked coreOf
    (fun a => some (coreCell cur a)) (snapRows env cur) (allOwners env)
    (snapRows_map_coreOf env cur hread)
  have e1 : (snapRows env cur).filter rowMarked
      = (snapRows env cur).filter (fun r => cellMarked (coreOf r)) := rfl
  have e2 : (allOwners env).filter (fun a => cellMarked (some (coreCell cur a)))
      = (allOwners env).filter (fun a => decide (a ∈ cur)) :=
    List.filter_congr (fun a _ => cellMarked_coreCell cur a)
  rw [e1, h2, e2]

theorem filter_mem_singleton_length :
    ∀ (l : List Nat) (H : Nat), l.Nodup → H ∈ l →
      (l.filter (fun a => decide (a ∈ ([H] : List Nat)))).length = 1 := by
  intro l H
  induction l with
  | nil => intro _ h; cases h
  | cons b t ih =>
    intro hnd hmem
    have hnd' := List.nodup_cons.mp hnd
    rcases List.mem_cons.mp hmem with rfl | hmem'
    · simp [List.filter_cons]
      intro a ha heq
      subst heq
      exact hnd'.1 ha
    · have hbH : ¬ b = H := by
        intro heq
        subst heq
        exact hnd'.1 hmem'
      have hfc : List.filter (fun a => decide (a = H)) t
          = List.filter (fun a => decide (a ∈ ([H] : List Nat))) t :=
        List.filter_congr (fun a _ => by simp)
      simp [List.filter_cons, hbH]
      rw [hfc]
      exact ih hnd'.2 hmem' 

theorem indexOf_inj_of_mem {cur : List Nat} {a b : Nat}
    (ha : a ∈ cur) (hb : b ∈ cur)
    (h : cur.indexOf a = cur.indexOf b) : a = b := by
  have hal : cur.indexOf a < cur.length := List.indexOf_lt_length.mpr ha
  have hbl : cur.indexOf b < cur.length := List.indexOf_lt_length.mpr hb
  have h1 : cur.get ⟨cur.indexOf a, hal⟩ = a := List.indexOf_get hal
  have h2 : cur.get ⟨cur.indexOf b, hbl⟩ = b := List.indexOf_get hbl
  rw [← h1, ← h2]
  simp only [h]

/-- C8: under readable records, the CPU cell of each snapshot row is the
first position of its owner handle in the current-task sequence when the
handle occurs there and the empty string otherwise; when the current-task
symbol is a scalar reporting handle H that occurs once among the walked
owners, exactly one row is marked and its core is 0; and for a
current-task array, at most as many rows are marked as there are cores,
the marked rows carry pairwise distinct core indices, and each marked
row's core index is a position in the array holding that row's handle. -/
theorem core_column_marking (env : Env) (cur : List Nat)
    (hread : ∀ a ∈ allOwners env, (env.tcbMem a).isSome = true) :
    ((snapRows env cur).map coreOf
        = (allOwners env).map (fun a =>
            some (if a ∈ cur then CellVal.intV (cur.indexOf a)
                  else CellVal.strV "")))
  ∧ (∀ H, get_current_tcbs (some (.scalar H)) = .ok cur →
      (allOwners env).Nodup → H ∈ allOwners env →
      ((snapRows env cur).filter rowMarked).length = 1
      ∧ ∀ r ∈ (snapRows env cur).filter rowMarked,
          coreOf r = some (CellVal.intV 0))
  ∧ ((allOwners env).Nodup →
      ((snapRows env cur).filter rowMarked).length ≤ cur.length
      ∧ ((snapRows env cur).filter rowMarked).Pairwise
          (fun r s => coreOf r ≠ coreOf s)
      ∧ ∀ r ∈ (snapRows env cur).filter rowMarked,
          ∃ a, a ∈ allOwners env ∧ ∃ j, ∃ hj : j < cur.length,
            cur.get ⟨j, hj⟩ = a ∧ coreOf r = some (CellVal.intV j)) := by
  have hkey := snapRows_filter_marked env cur hread
  refine ⟨?_, ?_, ?_⟩
  · rw [snapRows_map_coreOf env cur hread]
    rfl
  · intro H hscalar hnd hmem
    have hcur : cur = [H] := by
      simp only [get_current_tcbs, Except.ok.injEq] at hscalar
      exact hscalar.symm
    subst hcur
    constructor
    · have hlen := congrArg List.length hkey
      simp only [List.length_map] at hlen
      rw [hlen]
      exact filter_mem_singleton_length (allOwners env) H hnd hmem
    · intro r hr
      have hco : coreOf r ∈ ((snapRows env [H]).filter rowMarked).map coreOf :=
        List.mem_map_of_mem coreOf hr
      rw [hkey] at hco
      rcases List.mem_map.mp hco with ⟨a, ha, hco'⟩
      have haH : a = H := by
        have := List.of_mem_filter ha
        simpa using this
      rw [← hco', haH]
      simp [coreCell]
  · intro hnd
    have hfiltnd : ((allOwners env).filter (fun a => decide (a ∈ cur))).Nodup :=
      hnd.filter _
    have hmemcur : ∀ a ∈ (allOwners env).filter (fun a => decide (a ∈ cur)),
        a ∈ cur := by
      intro a ha
      have := List.of_mem_filter ha
      simpa using this
    refine ⟨?_, ?_, ?_⟩
    · have hlen := congrArg List.length hkey
      simp only [List.length_map] at hlen
      rw [hlen]
      have hidxnd : (((allOwners env).filter (fun a => decide (a ∈ cur))).map
          (fun a => cur.indexOf a)).Nodup := by
        apply List.Nodup.map_on ?_ hfiltnd
        intro x hx y hy hxy
        exact indexOf_inj_of_mem (hmemcur x hx) (hmemcur y hy) hxy
      have hsub : (((allOwners env).filter (fun a => decide (a ∈ cur))).map
          (fun a => cur.indexOf a)) ⊆ List.range cur.length := by
        intro i hi
        rcases List.mem_map.mp hi with ⟨a, ha, rfl⟩
        exact List.mem_range.mpr (List.indexOf_lt_length.mpr (hmemcur a ha))
      have hle := (List.subperm_of_subset hidxnd hsub).length_le
      simpa using hle
    · have hmapnd : (((snapRows env cur).filter rowMarked).map coreOf).Nodup := by
        rw [hkey]
        apply List.Nodup.map_on ?_ hfiltnd
        intro x hx y hy hxy
        have hx' := hmemcur x hx
        have hy' := hmemcur y hy
        simp only [coreCell, hx', hy', if_pos, Option.some.injEq,
          CellVal.intV.injEq, Nat.cast_inj] at hxy
        exact indexOf_inj_of_mem hx' hy' hxy
      exact List.pairwise_map.mp hmapnd
    · intro r hr
      have hco : coreOf r ∈ ((snapRows env cur).filter rowMarked).map coreOf :=
        List.mem_map_of_mem coreOf hr
      rw [hkey] at hco
      rcases List.mem_map.mp hco with ⟨a, ha, hco'⟩
      have hacur : a ∈ cur := hmemcur a ha
      refine ⟨a, List.mem_of_mem_filter ha, cur.indexOf a,
        List.indexOf_lt_length.mpr hacur,
        List.indexOf_get (List.indexOf_lt_length.mpr hacur), ?_⟩
      rw [← hco']
      simp [coreCell, hacur]

/-- The single ready list of the single-core marking scenario: two nodes at
110 and 120 owned by handles 500 and 600, closing at sentinel 1000. -/
def c8List : FreeRTOSList :=
  ⟨2, 1000, 110,
   fun a => if a == 110 then ⟨120, 500⟩ else if a == 120 then ⟨1000, 600⟩ else ⟨0, 0⟩⟩

/-- A single-core target whose running task is handle 600, the second of
the two walked tasks. -/
def c8Env : Env :=
  ⟨some (.scalar 600),
   fun s => if s == "pxReadyTasksLists" then .single c8List else .single emptyDeclaredL,
   exTcbMem, fun _ => false, 5⟩

/-- Witness for C8 on the single-core target running handle 600: exactly
one of the two snapshot rows is marked, the first row's CPU cell is the
empty string and the second's is core index 0. -/
theorem core_column_marking_witness :
    ((snapRows c8Env [600]).filter rowMarked).length = 1
  ∧ (snapRows c8Env [600]).map coreOf
      = [some (CellVal.strV ""), some (CellVal.intV 0)] := by
  have h := core_column_marking c8Env [600] (by decide)
  refine ⟨(h.2.1 600 rfl (by decide) (by decide)).1, ?_⟩
  rw [h.1]
  decide
